import Mathlib

/-!
Shallow embedding of the real-time pair-trading backend:
`backend/core/data_manager.py`, `backend/core/analytics.py`,
`backend/core/alerts_engine.py` and `backend/utils/helpers.py`.

Modelling conventions.

* Python floats are modelled as exact rationals (`ℚ`); a float `NaN` is
  modelled by `Option ℚ` (`none` = NaN) in the one pipeline that produces
  NaNs (the pandas OHLCV resampler).
* ISO-8601 UTC timestamp strings compare lexicographically exactly as the
  instants they denote compare, so timestamps are modelled as `Nat`.
* `collections.deque(maxlen = N)` is modelled by `dequeAppend`.
* Per-symbol Python dicts (`defaultdict`) are modelled as total functions
  `String → _` carrying the defaultdict default; materialisation of a
  default entry on key access is not observable through any of the
  accessors modelled here.
* External statistical estimators that the repository calls but does not
  implement (sklearn `HuberRegressor` / `TheilSenRegressor`, statsmodels
  `adfuller`) enter the model as total function parameters.
* The float square root inside the pandas rolling standard deviation is
  modelled by a function parameter `f : ℚ → ℚ` constrained by `SqrtSpec f`
  (on nonnegative inputs `f` vanishes exactly at zero), the only property
  of square roots the claims depend on.
-/

/-- Trade tick as handled by `DataManager.add_tick`: a dict with keys
`symbol`, `price`, `qty`, `ts`. -/
structure Tick where
  symbol : String
  price : ℚ
  qty : ℚ
  ts : Nat
deriving DecidableEq

/-- Python `str.upper()` on the character list of a string. -/
def strUpper (s : String) : String :=
  ⟨s.data.map Char.toUpper⟩

/-- Python `str.lower()` on the character list of a string. -/
def strLower (s : String) : String :=
  ⟨s.data.map Char.toLower⟩

/-- Python `str.strip()` on the character list of a string: drop leading
and trailing whitespace. -/
def strStrip (s : String) : String :=
  ⟨((s.data.dropWhile Char.isWhitespace).reverse.dropWhile
      Char.isWhitespace).reverse⟩

/-- helpers.normalize_symbol: `symbol.strip().upper()`. -/
def normalize_symbol (s : String) : String :=
  strUpper (strStrip s)

/-- helpers.safe_division: return `default` when the denominator is zero.
The `np.isnan` guards of the source cannot fire in the rational model:
the call sites pass arguments that are checked `notna` beforehand. -/
def safe_division (numerator denominator default : ℚ) : ℚ :=
  if denominator = 0 then default else numerator / denominator

/-- alerts_engine.AlertsEngine._evaluate_condition: dispatch on the
operator string, with an epsilon tolerance of 1e-6 for `==`. -/
def evaluate_condition (actual : ℚ) (operator : String) (threshold : ℚ) : Bool :=
  if operator = ">" then decide (actual > threshold)
  else if operator = "<" then decide (actual < threshold)
  else if operator = ">=" then decide (actual ≥ threshold)
  else if operator = "<=" then decide (actual ≤ threshold)
  else if operator = "==" then decide (|actual - threshold| < 1 / 1000000)
  else false

/-- Result value of analytics.AnalyticsEngine.compute_adf_test. -/
structure AdfResult where
  stat : ℚ
  pvalue : ℚ
deriving DecidableEq

/-- analytics.AnalyticsEngine.compute_adf_test, after the spread series has
been computed by compute_spread (the caller passes it as `spreads`, a list
of (ts, value) points). The statsmodels `adfuller` call is the external
estimator parameter; `none` models its exception branch, which the source
catches and maps to the same neutral default as the short-series branch. -/
def compute_adf_test (spreads : List (Nat × ℚ))
    (adfuller : List ℚ → Option (ℚ × ℚ)) : AdfResult :=
  if spreads.length < 20 then { stat := 0, pvalue := 1 }
  else
    match adfuller (spreads.map Prod.snd) with
    | some r => { stat := r.1, pvalue := r.2 }
    | none => { stat := 0, pvalue := 1 }

/-- Arithmetic mean of a list (pandas `Series.mean`); only evaluated on
nonempty windows by the call sites. -/
def listMean (xs : List ℚ) : ℚ :=
  xs.sum / xs.length

/-- Sample variance with `ddof = 1`, the square of the pandas rolling
standard deviation; only evaluated on windows of length ≥ 2 by the call
sites. -/
def sampleVar (xs : List ℚ) : ℚ :=
  (xs.map (fun x => (x - listMean xs) ^ 2)).sum / ((xs.length : ℚ) - 1)

/-- The only property of the float square root that the claims depend on:
on nonnegative inputs it vanishes exactly at zero. -/
def SqrtSpec (f : ℚ → ℚ) : Prop :=
  ∀ q : ℚ, 0 ≤ q → (f q = 0 ↔ q = 0)

/-- A concrete computable function satisfying `SqrtSpec`, used to
instantiate counterexamples and witnesses. -/
def sqrtStub (q : ℚ) : ℚ :=
  if q ≤ 0 then 0 else 1

/-- Rolling window of length `w` ending at position `idx` (pandas
positional rolling over a column). -/
def rollingWindow (vals : List ℚ) (w idx : Nat) : List ℚ :=
  (vals.take (idx + 1)).rtake w

/-- Point `idx` of analytics.AnalyticsEngine.compute_zscore (lines
255-298), downstream of compute_spread: the caller passes the spread
series (strictly increasing timestamps, so label indexing agrees with
positional indexing). `sqrt` stands for the float square root inside the
pandas rolling std. The rolling mean at `idx` is defined iff at least
`effective_window` observations are available (`min_periods`), and the
rolling std additionally needs `effective_window ≥ 2` (`ddof = 1`); the
point is kept only when both are defined (the `pd.notna` guard), and its
value goes through `safe_division` with default 0.0. -/
def zscoreAt (spreads : List (Nat × ℚ)) (window : Nat) (sqrt : ℚ → ℚ)
    (idx : Nat) : Option (Nat × ℚ) :=
  match spreads.get? idx with
  | none => none
  | some p =>
    if spreads.length < 2 then none
    else
      let effective_window := min window spreads.length
      if effective_window ≤ idx + 1 ∧ 2 ≤ effective_window then
        let win := rollingWindow (spreads.map Prod.snd) effective_window idx
        some (p.1, safe_division (p.2 - listMean win) (sqrt (sampleVar win)) 0)
      else none

/-- analytics.AnalyticsEngine.compute_zscore: the emitted z-score series,
one candidate point per index of the spread series. -/
def compute_zscore (spreads : List (Nat × ℚ)) (window : Nat)
    (sqrt : ℚ → ℚ) : List (Nat × ℚ) :=
  (List.range spreads.length).filterMap (zscoreAt spreads window sqrt)

/-- The rolling standard deviation underlying point `idx` of the z-score
computation is defined and equals zero, i.e. the window ending at `idx`
has zero sample variance (a square root of a nonnegative float is zero
exactly when its argument is). -/
def rollingStdZero (spreads : List (Nat × ℚ)) (window : Nat) (idx : Nat) : Bool :=
  let effective_window := min window spreads.length
  decide (2 ≤ spreads.length ∧ effective_window ≤ idx + 1 ∧ 2 ≤ effective_window ∧
    sampleVar (rollingWindow (spreads.map Prod.snd) effective_window idx) = 0)

/-- Row of the OHLCV frame built by helpers.resample_to_ohlcv; a `none`
price field models a float NaN produced by pandas. `ts` is the bucket
start time. The final frame keeps `volume` filled (`fillna(0.0)`); during
the pipeline an empty bucket has `volume = none` (`sum(min_count=1)`). -/
structure OhlcRow where
  ts : Nat
  open_ : Option ℚ
  high : Option ℚ
  low : Option ℚ
  close : Option ℚ
  volume : Option ℚ
deriving DecidableEq

/-- Ticks falling into resample bucket `b` of width `w`, in time order
(pandas resample bins of a day-aligned epoch: bucket of `ts` is `ts / w`
for the supported widths). -/
def bucketTicks (ticks : List Tick) (w b : Nat) : List Tick :=
  ticks.filter (fun t => t.ts / w == b)

/-- One bucket row of `df['price'].resample(w).ohlc()` together with
`df['qty'].resample(w).sum(min_count=1)`: an all-NaN row for an empty
bucket, else first/max/min/last price and the quantity sum. -/
def rawRow (ticks : List Tick) (w b : Nat) : OhlcRow :=
  match bucketTicks ticks w b with
  | [] => ⟨b * w, none, none, none, none, none⟩
  | t0 :: rest =>
    ⟨b * w,
     some t0.price,
     some ((rest.map Tick.price).foldl max t0.price),
     some ((rest.map Tick.price).foldl min t0.price),
     some (((t0 :: rest).getLast (List.cons_ne_nil t0 rest)).price),
     some (((t0 :: rest).map Tick.qty).sum)⟩

/-- pandas `dropna(how='all')` test on a resampled row. -/
def rowAllNa (r : OhlcRow) : Bool :=
  r.open_.isNone && r.high.isNone && r.low.isNone && r.close.isNone &&
    r.volume.isNone

/-- pandas `.replace(0, np.nan)` on one cell. -/
def replaceZero (x : Option ℚ) : Option ℚ :=
  match x with
  | some v => if v = 0 then none else some v
  | none => none

/-- pandas `.replace(0, np.nan)` over the four price columns of a row. -/
def replaceZeroRow (r : OhlcRow) : OhlcRow :=
  { r with open_ := replaceZero r.open_, high := replaceZero r.high,
           low := replaceZero r.low, close := replaceZero r.close }

/-- One forward-fill step: keep the cell if present, else the carry. -/
def fillValue (x prev : Option ℚ) : Option ℚ :=
  match x with
  | some v => some v
  | none => prev

/-- pandas `.ffill()` on the four price columns, carrying the last defined
value of each column down the rows. -/
def ffillRows (po ph pl pc : Option ℚ) : List OhlcRow → List OhlcRow
  | [] => []
  | r :: rs =>
    let o := fillValue r.open_ po
    let h := fillValue r.high ph
    let l := fillValue r.low pl
    let c := fillValue r.close pc
    { r with open_ := o, high := h, low := l, close := c } :: ffillRows o h l c rs

/-- pandas `.bfill()` on the four price columns. -/
def bfillRows (rows : List OhlcRow) : List OhlcRow :=
  (ffillRows none none none none rows.reverse).reverse

/-- Row-wise `max(axis=1)` with pandas default `skipna=True`. -/
def optMax (xs : List (Option ℚ)) : Option ℚ :=
  match xs.filterMap id with
  | [] => none
  | y :: ys => some (ys.foldl max y)

/-- Row-wise `min(axis=1)` with pandas default `skipna=True`. -/
def optMin (xs : List (Option ℚ)) : Option ℚ :=
  match xs.filterMap id with
  | [] => none
  | y :: ys => some (ys.foldl min y)

/-- helpers.resample_to_ohlcv lines 81-86: recompute `high` as the
row-wise max of the four price columns, then `low` as the row-wise min
(over the already updated `high`), then fill missing volume with zero. -/
def fixRow (r : OhlcRow) : OhlcRow :=
  let hi := optMax [r.open_, r.high, r.low, r.close]
  let lo := optMin [r.open_, hi, r.low, r.close]
  { r with high := hi, low := lo, volume := some (r.volume.getD 0) }

/-- Bucketing part of helpers.resample_to_ohlcv: sort the ticks by
timestamp (pandas resample sorts the index), generate every bucket between
the first and the last tick (pandas emits contiguous bins) and drop the
all-NaN rows (`dropna(how='all')`, removing exactly the empty buckets). -/
def resampleRows (sorted : List Tick) (w : Nat) : List OhlcRow :=
  let buckets := sorted.map (fun t => t.ts / w)
  let b0 := buckets.foldl min (buckets.headD 0)
  let b1 := buckets.foldl max (buckets.headD 0)
  ((List.range (b1 + 1 - b0)).map (fun i => rawRow sorted w (b0 + i))).filter
    (fun r => ! rowAllNa r)

/-- helpers.resample_to_ohlcv: bucket the ticks into fixed-width bins,
drop empty buckets, replace zero prices by NaN, forward- then
backward-fill the price columns, recompute high/low row-wise and fill
missing volumes with zero. -/
def resample_to_ohlcv (ticks : List Tick) (w : Nat) : List OhlcRow :=
  match ticks with
  | [] => []
  | _ =>
    let sorted := List.insertionSort (fun a b => a.ts ≤ b.ts) ticks
    let rows1 := resampleRows sorted w
    let rows2 := rows1.map replaceZeroRow
    (bfillRows (ffillRows none none none none rows2)).map fixRow

/-- The candle invariant claimed by the spec, read with IEEE float
semantics: a comparison involving a missing (NaN) field is false. -/
def candleOk (r : OhlcRow) : Bool :=
  match r.open_, r.high, r.low, r.close with
  | some o, some hi, some lo, some c => decide (max o c ≤ hi ∧ lo ≤ min o c)
  | _, _, _, _ => false

/-- helpers.timeframe_to_seconds composed with the bucket widths of the
pandas rules from helpers.timeframe_to_pandas_rule (both fall back to one
minute for unknown timeframes). -/
def timeframe_to_seconds (tf : String) : Nat :=
  let t := strLower tf
  if t = "1s" then 1
  else if t = "1m" then 60
  else if t = "5m" then 300
  else if t = "15m" then 900
  else if t = "1h" then 3600
  else if t = "1d" then 86400
  else 60

/-- In-memory state of data_manager.DataManager: per-symbol bounded tick
buffers (`defaultdict` of `deque(maxlen=tick_buffer_size)`) and the
resampled OHLCV cache keyed by (symbol, timeframe). The statistics fields
(`tick_counts`, `last_tick_time`) are not referenced by any claim and are
omitted. -/
structure DataManager where
  tick_buffers : String → List Tick
  ohlcv_cache : String × String → Option (List OhlcRow)
  tick_buffer_size : Nat

/-- Append to a `collections.deque(maxlen = N)`: the oldest entries are
evicted so that at most `N` remain. -/
def dequeAppend (N : Nat) (xs : List Tick) (x : Tick) : List Tick :=
  if xs.length < N then xs ++ [x] else (xs ++ [x]).drop (xs.length + 1 - N)

/-- data_manager.DataManager.add_tick: append the tick to its symbol's
bounded buffer. -/
def DataManager.add_tick (dm : DataManager) (tick : Tick) : DataManager :=
  let symbol := normalize_symbol tick.symbol
  { dm with tick_buffers := fun s =>
      if s = symbol then dequeAppend dm.tick_buffer_size (dm.tick_buffers s) tick
      else dm.tick_buffers s }

/-- Folding data_manager.DataManager.add_tick over a list of ticks. -/
def DataManager.add_ticks (dm : DataManager) (ticks : List Tick) : DataManager :=
  ticks.foldl DataManager.add_tick dm

/-- data_manager.DataManager.get_ticks: snapshot the symbol's buffer, then
apply the optional time filters and the optional most-recent limit. A
limit of 0 is falsy in Python and is not applied. -/
def DataManager.get_ticks (dm : DataManager) (symbol : String)
    (limit : Option Nat) (from_ts to_ts : Option Nat) : List Tick :=
  let ticks0 := dm.tick_buffers (normalize_symbol symbol)
  let ticks1 := match from_ts with
    | some f => ticks0.filter (fun t => f ≤ t.ts)
    | none => ticks0
  let ticks2 := match to_ts with
    | some u => ticks1.filter (fun t => t.ts ≤ u)
    | none => ticks1
  match limit with
  | some (n + 1) => ticks2.rtake (n + 1)
  | _ => ticks2

/-- data_manager.DataManager.get_latest_price: `None` on an empty buffer,
else the price of the last buffered tick. -/
def DataManager.get_latest_price (dm : DataManager) (symbol : String) : Option ℚ :=
  match (dm.tick_buffers (normalize_symbol symbol)).getLast? with
  | none => none
  | some t => some t.price

/-- data_manager.DataManager.clear_buffer: clear one symbol's buffer and
drop its cache entries for every timeframe, or clear everything. -/
def DataManager.clear_buffer (dm : DataManager) (symbol : Option String) :
    DataManager :=
  match symbol with
  | some s0 =>
    let s := normalize_symbol s0
    { dm with
      tick_buffers := fun x => if x = s then [] else dm.tick_buffers x,
      ohlcv_cache := fun k => if k.1 = s then none else dm.ohlcv_cache k }
  | none =>
    { dm with tick_buffers := fun _ => [], ohlcv_cache := fun _ => none }

/-- Caller-side filters of data_manager.DataManager.get_ohlcv (lines
153-161): time filters on the cached frame, then `df.tail(limit)`; a limit
of 0 is falsy in Python and is not applied. -/
def ohlcvFilters (df : List OhlcRow) (limit : Option Nat)
    (from_ts to_ts : Option Nat) : List OhlcRow :=
  let d1 := match from_ts with
    | some f => df.filter (fun r => f ≤ r.ts)
    | none => df
  let d2 := match to_ts with
    | some u => d1.filter (fun r => r.ts ≤ u)
    | none => d1
  match limit with
  | some (n + 1) => d2.rtake (n + 1)
  | _ => d2

/-- data_manager.DataManager.get_ohlcv: serve from the (symbol, timeframe)
cache unless refresh is forced, otherwise resample the (time-filtered)
tick snapshot and write the frame back to the cache; either way apply the
caller-side time/limit filters to the frame. Returns the candle list and
the updated manager state. -/
def DataManager.get_ohlcv (dm : DataManager) (symbol timeframe : String)
    (limit : Option Nat) (from_ts to_ts : Option Nat)
    (force_resample : Bool) : List OhlcRow × DataManager :=
  let s := normalize_symbol symbol
  let cache_key := (s, timeframe)
  match (if force_resample then none else dm.ohlcv_cache cache_key) with
  | some df => (ohlcvFilters df limit from_ts to_ts, dm)
  | none =>
    let ticks := dm.get_ticks s none from_ts to_ts
    if ticks = [] then ([], dm)
    else
      let df := resample_to_ohlcv ticks (timeframe_to_seconds timeframe)
      let dm2 := { dm with ohlcv_cache := fun k =>
        if k = cache_key then some df else dm.ohlcv_cache k }
      (ohlcvFilters df limit from_ts to_ts, dm2)

/-- Inner join of two timestamp-indexed close-price series:
`pd.DataFrame({'a': A, 'b': B}).dropna()`. For series with strictly
increasing, duplicate-free indices this keeps exactly the timestamps
present in both series, in order, pairing the two values. -/
def innerJoin (sa sb : List (Nat × ℚ)) : List (Nat × ℚ × ℚ) :=
  sa.filterMap (fun p => (List.lookup p.1 sb).map (fun vb => (p.1, p.2, vb)))

/-- analytics.AnalyticsEngine._ols_hedge_ratio: statsmodels OLS slope of
`y` against `[1, x]`. On a nonsingular design this is the covariance over
the variance of `x`; on a singular design (constant `x`) statsmodels falls
back to the Moore-Penrose least-norm solution, whose slope coordinate is
`mx * my / (1 + mx ^ 2)`. -/
def ols_hedge_ratio (y x : List ℚ) : ℚ :=
  let mx := listMean x
  let my := listMean y
  let sxx := (x.map (fun v => (v - mx) ^ 2)).sum
  let sxy := (List.zipWith (fun v u => (v - mx) * (u - my)) x y).sum
  if sxx = 0 then mx * my / (1 + mx ^ 2) else sxy / sxx

/-- Per-window method dispatch of compute_hedge_ratio (analytics.py lines
110-132): OLS and the Kalman alias use the OLS slope, Huber and Theil-Sen
call the external sklearn estimators (total function parameters), and any
other method label silently yields the constant ratio 1.0. -/
def hedgeFit (method : String) (huber theilsen : List ℚ → List ℚ → ℚ)
    (y x : List ℚ) : ℚ :=
  if strUpper method = "OLS" then ols_hedge_ratio y x
  else if strUpper method = "HUBER" then huber y x
  else if strUpper method = "THEIL-SEN" then theilsen y x
  else if strUpper method = "KALMAN" then ols_hedge_ratio y x
  else 1

/-- analytics.AnalyticsEngine.compute_hedge_ratio downstream of the price
fetch (lines 68-142): the caller passes the two close-price series pulled
from the data manager. Align on timestamps, bail out below two points,
shrink the window to the aligned length, then slide: window `j` covers
aligned rows `j .. j + effective_window - 1` and emits the timestamp of
its last row with the fitted ratio. A requested window of 0 makes every
iteration raise on `window_data.index[-1]` (the loop catches and skips),
yielding the empty list. -/
def compute_hedge_ratio (prices_a prices_b : List (Nat × ℚ)) (window : Nat)
    (method : String) (huber theilsen : List ℚ → List ℚ → ℚ) :
    List (Nat × ℚ) :=
  if min prices_a.length prices_b.length < 2 then []
  else
    let df := innerJoin prices_a prices_b
    if df.length < 2 then []
    else
      let effective_window := min window df.length
      if effective_window = 0 then []
      else
        (List.range (df.length + 1 - effective_window)).map (fun j =>
          let window_data := (df.take (effective_window + j)).rtake effective_window
          ((window_data.getLast?.map (fun q => q.1)).getD 0,
           hedgeFit method huber theilsen
             (window_data.map (fun q => q.2.1))
             (window_data.map (fun q => q.2.2))))

/-! Helper lemmas. -/

theorem getLast?_drop_of_lt {α : Type} (l : List α) :
    ∀ k, k < l.length → (l.drop k).getLast? = l.getLast? := by
  induction l with
  | nil => intro k h; simp at h
  | cons a l ih =>
    intro k h
    cases k with
    | zero => rfl
    | succ k =>
      cases l with
      | nil => simp at h
      | cons b l' =>
        rw [List.drop_succ_cons, List.getLast?_cons_cons]
        refine ih k ?_
        simp only [List.length_cons] at h ⊢
        omega

theorem dequeAppend_getLast? (N : Nat) (xs : List Tick) (x : Tick)
    (hN : 0 < N) : (dequeAppend N xs x).getLast? = some x := by
  unfold dequeAppend
  split
  · exact List.getLast?_concat _
  · rw [getLast?_drop_of_lt]
    · exact List.getLast?_concat _
    · simp only [List.length_append, List.length_cons, List.length_nil]
      omega

theorem dequeAppend_eq_drop (N : Nat) (xs : List Tick) (x : Tick) :
    dequeAppend N xs x = (xs ++ [x]).drop (xs.length + 1 - N) := by
  unfold dequeAppend
  split
  · rw [Nat.sub_eq_zero_of_le (by omega), List.drop_zero]
  · rfl

theorem drop_append_of_le {α : Type} (l₁ l₂ : List α) (n : Nat)
    (h : n ≤ l₁.length) : (l₁ ++ l₂).drop n = l₁.drop n ++ l₂ := by
  rw [List.drop_append_eq_append_drop, Nat.sub_eq_zero_of_le h, List.drop_zero]

theorem foldl_dequeAppend (N : Nat) :
    ∀ (ticks : List Tick) (xs : List Tick), xs.length ≤ N →
      ticks.foldl (dequeAppend N) xs =
        (xs ++ ticks).drop (xs.length + ticks.length - N) := by
  intro ticks
  induction ticks with
  | nil =>
    intro xs h
    rw [List.foldl_nil, List.append_nil, List.length_nil,
      Nat.add_zero, Nat.sub_eq_zero_of_le h, List.drop_zero]
  | cons t ticks ih =>
    intro xs h
    rw [List.foldl_cons, dequeAppend_eq_drop N xs t,
      ih _ (by rw [List.length_drop]; simp only [List.length_append,
        List.length_cons, List.length_nil]; omega)]
    rw [List.length_drop]
    have h1 : xs.length + 1 - N ≤ (xs ++ [t]).length := by
      simp only [List.length_append, List.length_cons, List.length_nil]
      omega
    rw [← drop_append_of_le (xs ++ [t]) ticks _ h1]
    rw [List.drop_drop, List.append_assoc, List.singleton_append]
    congr 1
    simp only [List.length_append, List.length_cons, List.length_nil]
    omega

theorem add_ticks_buffers (dm : DataManager) (ticks : List Tick) (S : String)
    (hsym : ∀ t ∈ ticks, normalize_symbol t.symbol = S) :
    (dm.add_ticks ticks).tick_buffers S =
      ticks.foldl (dequeAppend dm.tick_buffer_size) (dm.tick_buffers S) := by
  induction ticks generalizing dm with
  | nil => rfl
  | cons t ticks ih =>
    have hhd : normalize_symbol t.symbol = S := hsym t (by simp)
    have htl : ∀ u ∈ ticks, normalize_symbol u.symbol = S := by
      intro u hu; exact hsym u (by simp [hu])
    show ((dm.add_tick t).add_ticks ticks).tick_buffers S = _
    rw [ih (dm.add_tick t) htl]
    simp [DataManager.add_tick, hhd]

/-! Claim theorems. -/

/-- C7: alert condition evaluation with operator `==` returns true exactly
when the absolute difference of actual and threshold is below 1e-6; in
particular a difference of 1e-7 matches and a difference of 1e-5 does
not. -/
theorem C7_alert_equality_tolerance :
    (∀ actual threshold : ℚ,
      (evaluate_condition actual "==" threshold = true ↔
        |actual - threshold| < 1 / 1000000)) ∧
    evaluate_condition (1 / 10000000) "==" 0 = true ∧
    evaluate_condition (1 / 100000) "==" 0 = false := by
  refine ⟨fun actual threshold => ?_, ?_, ?_⟩
  · simp [evaluate_condition]
  · simp only [evaluate_condition, String.reduceEq, reduceIte]
    rw [show |(1 : ℚ) / 10000000 - 0| = 1 / 10000000 by
      rw [abs_of_nonneg] <;> norm_num]
    norm_num
  · simp only [evaluate_condition, String.reduceEq, reduceIte]
    rw [show |(1 : ℚ) / 100000 - 0| = 1 / 100000 by
      rw [abs_of_nonneg] <;> norm_num]
    norm_num

/-- C4: whenever the computed spread series has fewer than 20 points,
compute_adf_test returns exactly the neutral default
`stat = 0.0, pvalue = 1.0` without invoking the ADF estimator (and hence
cannot raise). -/
theorem C4_adf_short_series (spreads : List (Nat × ℚ))
    (adfuller : List ℚ → Option (ℚ × ℚ)) (h : spreads.length < 20) :
    compute_adf_test spreads adfuller = { stat := 0, pvalue := 1 } := by
  simp [compute_adf_test, h]

/-- Witness for C4 at a concrete short spread series. -/
theorem C4_adf_short_series_witness :
    ([((0 : Nat), (5 : ℚ))].length < 20) ∧
      compute_adf_test [((0 : Nat), (5 : ℚ))] (fun _ => none) =
        { stat := 0, pvalue := 1 } :=
  ⟨by decide, C4_adf_short_series [((0 : Nat), (5 : ℚ))] (fun _ => none) (by decide)⟩

/-- C10: get_latest_price returns none exactly on an empty buffer, returns
the price of the last (most recently appended) buffered tick otherwise,
and reads the buffer of the tick most recently added through add_tick
(for any positive capacity); it is a pure read of the manager state. -/
theorem C10_get_latest_price (dm : DataManager) (symbol : String) :
    (dm.get_latest_price symbol = none ↔
      dm.tick_buffers (normalize_symbol symbol) = []) ∧
    (∀ (pre : List Tick) (t : Tick),
      dm.tick_buffers (normalize_symbol symbol) = pre ++ [t] →
      dm.get_latest_price symbol = some t.price) ∧
    (∀ t : Tick, 0 < dm.tick_buffer_size →
      (dm.add_tick t).get_latest_price t.symbol = some t.price) := by
  refine ⟨?_, ?_, ?_⟩
  · unfold DataManager.get_latest_price
    cases h : (dm.tick_buffers (normalize_symbol symbol)).getLast? with
    | none =>
      simp only [List.getLast?_eq_none_iff] at h
      simp [h]
    | some t =>
      have : dm.tick_buffers (normalize_symbol symbol) ≠ [] := by
        intro hnil; rw [hnil] at h; simp at h
      simp [this]
  · intro pre t h
    unfold DataManager.get_latest_price
    rw [h, List.getLast?_concat]
  · intro t hN
    unfold DataManager.get_latest_price DataManager.add_tick
    simp [dequeAppend_getLast? _ _ _ hN]

/-- Witness for C10 at a concrete manager state. -/
theorem C10_get_latest_price_witness :
    (DataManager.mk (fun _ => [Tick.mk "BTCUSDT" 7 1 0]) (fun _ => none) 5
        |>.get_latest_price "BTCUSDT") = some 7 := by
  have h := C10_get_latest_price
    (DataManager.mk (fun _ => [Tick.mk "BTCUSDT" 7 1 0]) (fun _ => none) 5)
    "BTCUSDT"
  exact h.2.1 [] (Tick.mk "BTCUSDT" 7 1 0) rfl

/-- C8: clearing one symbol empties exactly that symbol's tick buffer and
drops exactly its cache entries (every timeframe), leaving every other
symbol's buffer and cache entries unchanged; clearing with no symbol
empties all buffers and the whole cache. -/
theorem C8_clear_buffer (dm : DataManager) (S : String)
    (hS : normalize_symbol S = S) :
    ((dm.clear_buffer (some S)).tick_buffers S = [] ∧
     (∀ tf, (dm.clear_buffer (some S)).ohlcv_cache (S, tf) = none) ∧
     (∀ x, x ≠ S → (dm.clear_buffer (some S)).tick_buffers x = dm.tick_buffers x) ∧
     (∀ x tf, x ≠ S →
       (dm.clear_buffer (some S)).ohlcv_cache (x, tf) = dm.ohlcv_cache (x, tf))) ∧
    ((∀ x, (dm.clear_buffer none).tick_buffers x = []) ∧
     (∀ k, (dm.clear_buffer none).ohlcv_cache k = none)) := by
  refine ⟨⟨?_, fun tf => ?_, fun x hx => ?_, fun x tf hx => ?_⟩, fun x => rfl, fun k => rfl⟩
  · simp [DataManager.clear_buffer, hS]
  · simp [DataManager.clear_buffer, hS]
  · simp [DataManager.clear_buffer, hS, hx]
  · simp [DataManager.clear_buffer, hS, hx]

/-- Witness for C8 at a concrete manager state holding two symbols. -/
theorem C8_clear_buffer_witness :
    normalize_symbol "BTCUSDT" = "BTCUSDT" ∧
    ((DataManager.mk (fun _ => [Tick.mk "BTCUSDT" 7 1 0]) (fun _ => some []) 5
        |>.clear_buffer (some "BTCUSDT")).tick_buffers "BTCUSDT" = [] ∧
     (DataManager.mk (fun _ => [Tick.mk "BTCUSDT" 7 1 0]) (fun _ => some []) 5
        |>.clear_buffer (some "BTCUSDT")).ohlcv_cache ("ETHUSDT", "1m") = some []) := by
  have h := C8_clear_buffer
    (DataManager.mk (fun _ => [Tick.mk "BTCUSDT" 7 1 0]) (fun _ => some []) 5)
    "BTCUSDT" (by decide)
  exact ⟨by decide, h.1.1, h.1.2.2.2 "ETHUSDT" "1m" (by decide)⟩

/-- C2: with per-symbol capacity N, inserting N+k ticks (k > 0) through
add_tick leaves exactly the last N inserted ticks in insertion order; the
k oldest are evicted and get_ticks with no filters returns exactly the
buffer contents. -/
theorem C2_tick_buffer_fifo (dm : DataManager) (S : String)
    (ticks : List Tick) (k : Nat)
    (hS : normalize_symbol S = S)
    (hsym : ∀ t ∈ ticks, normalize_symbol t.symbol = S)
    (hempty : dm.tick_buffers S = [])
    (hlen : ticks.length = dm.tick_buffer_size + k)
    (hk : 0 < k) :
    (dm.add_ticks ticks).get_ticks S none none none = ticks.drop k ∧
    ((dm.add_ticks ticks).get_ticks S none none none).length =
      dm.tick_buffer_size := by
  have hb : (dm.add_ticks ticks).get_ticks S none none none =
      (dm.add_ticks ticks).tick_buffers (normalize_symbol S) := rfl
  rw [hS] at hb
  rw [hb, add_ticks_buffers dm ticks S hsym, hempty,
    foldl_dequeAppend _ _ _ (by simp)]
  rw [List.nil_append, List.length_nil, Nat.zero_add]
  have h2 : ticks.length - dm.tick_buffer_size = k := by omega
  rw [h2]
  exact ⟨rfl, by rw [List.length_drop]; omega⟩

/-- Witness for C2: capacity 3, ticks at prices 1,2,3,4 leave the buffer
holding the ticks at prices 2,3,4. -/
theorem C2_tick_buffer_fifo_witness :
    normalize_symbol "X" = "X" ∧
    (DataManager.mk (fun _ => []) (fun _ => none) 3 |>.add_ticks
        [Tick.mk "X" 1 1 0, Tick.mk "X" 2 1 1, Tick.mk "X" 3 1 2,
         Tick.mk "X" 4 1 3]).get_ticks "X" none none none =
      [Tick.mk "X" 2 1 1, Tick.mk "X" 3 1 2, Tick.mk "X" 4 1 3] := by
  have h := C2_tick_buffer_fifo
    (DataManager.mk (fun _ => []) (fun _ => none) 3) "X"
    [Tick.mk "X" 1 1 0, Tick.mk "X" 2 1 1, Tick.mk "X" 3 1 2,
     Tick.mk "X" 4 1 3] 1
    (by decide) (by decide) rfl (by decide) (by decide)
  exact ⟨by decide, h.1⟩

/-- C5: calling get_ohlcv twice with identical arguments, no tick added in
between and force_resample false returns an identical candle list (and
leaves the manager state of the first call unchanged): the second call is
served from the cache entry visible after the first. -/
theorem C5_get_ohlcv_idempotent (dm : DataManager) (symbol timeframe : String)
    (limit : Option Nat) (from_ts to_ts : Option Nat) :
    ((dm.get_ohlcv symbol timeframe limit from_ts to_ts false).2.get_ohlcv
        symbol timeframe limit from_ts to_ts false) =
      dm.get_ohlcv symbol timeframe limit from_ts to_ts false := by
  cases h : dm.ohlcv_cache (normalize_symbol symbol, timeframe) with
  | some df => simp [DataManager.get_ohlcv, h]
  | none =>
    by_cases ht :
        dm.get_ticks (normalize_symbol symbol) none from_ts to_ts = []
    · simp [DataManager.get_ohlcv, h, ht]
    · simp [DataManager.get_ohlcv, h, ht]

theorem sqrtStub_spec : SqrtSpec sqrtStub := by
  intro q hq
  unfold sqrtStub
  constructor
  · intro h
    by_contra hne
    have hnle : ¬ q ≤ 0 := fun hle => hne (le_antisymm hle hq)
    rw [if_neg hnle] at h
    exact one_ne_zero h
  · intro h
    subst h
    simp

/-- C1 (amended): a z-score point whose underlying rolling standard
deviation is defined and exactly 0 is not omitted: it is emitted with
the safe_division default value 0.0 (the division is avoided, the point
is kept). -/
theorem C1_zscore_zero_std_point (spreads : List (Nat × ℚ)) (window : Nat)
    (f : ℚ → ℚ) (idx ts : Nat) (x : ℚ)
    (hf : SqrtSpec f)
    (hget : spreads.get? idx = some (ts, x))
    (hstd : rollingStdZero spreads window idx = true) :
    zscoreAt spreads window f idx = some (ts, 0) ∧
    (ts, 0) ∈ compute_zscore spreads window f := by
  unfold rollingStdZero at hstd
  rw [decide_eq_true_eq] at hstd
  obtain ⟨hlen2, hle, h2w, hvar⟩ := hstd
  have hf0 : f (sampleVar (rollingWindow (spreads.map Prod.snd)
      (min window spreads.length) idx)) = 0 := by
    rw [hvar]
    exact (hf 0 le_rfl).mpr rfl
  have hz : zscoreAt spreads window f idx = some (ts, 0) := by
    have hnlt : ¬ spreads.length < 2 := by omega
    simp only [zscoreAt, hget, if_neg hnlt]
    rw [if_pos ⟨hle, h2w⟩, hf0]
    simp [safe_division]
  refine ⟨hz, ?_⟩
  unfold compute_zscore
  refine List.mem_filterMap.mpr ⟨idx, ?_, hz⟩
  refine List.mem_range.mpr ?_
  obtain ⟨hlt, -⟩ := List.get?_eq_some.mp hget
  exact hlt

/-- Counterexample to C1 as stated: on the constant spread series
[(0, 5), (1, 5)] with window 2 the rolling standard deviation at index 1
(timestamp 1) is defined and exactly 0, yet the z-score series does
contain a point at that timestamp (with value 0.0); the point is not
omitted. The square root stub satisfies the defining property of the
real square root used by the claim. -/
theorem C1_zscore_zero_std_counterexample :
    rollingStdZero [((0 : Nat), (5 : ℚ)), (1, 5)] 2 1 = true ∧
    zscoreAt [((0 : Nat), (5 : ℚ)), (1, 5)] 2 sqrtStub 1 = some (1, 0) ∧
    (((1 : Nat), (0 : ℚ)) ∈
      compute_zscore [((0 : Nat), (5 : ℚ)), (1, 5)] 2 sqrtStub) ∧
    SqrtSpec sqrtStub := by
  refine ⟨?_, ?_, ?_, sqrtStub_spec⟩
  · norm_num [rollingStdZero, sampleVar, rollingWindow, listMean, List.rtake]
  · norm_num [zscoreAt, safe_division, sqrtStub, sampleVar, rollingWindow,
      listMean, List.rtake]
  · norm_num [compute_zscore, zscoreAt, safe_division, sqrtStub, sampleVar,
      rollingWindow, listMean, List.rtake, List.range_succ]

/-- Witness for the amended C1 at the concrete constant spread series. -/
theorem C1_zscore_zero_std_point_witness :
    rollingStdZero [((0 : Nat), (5 : ℚ)), (1, 5)] 2 1 = true ∧
    (zscoreAt [((0 : Nat), (5 : ℚ)), (1, 5)] 2 sqrtStub 1 = some (1, 0) ∧
     ((1 : Nat), (0 : ℚ)) ∈
       compute_zscore [((0 : Nat), (5 : ℚ)), (1, 5)] 2 sqrtStub) := by
  have hstd : rollingStdZero [((0 : Nat), (5 : ℚ)), (1, 5)] 2 1 = true := by
    norm_num [rollingStdZero, sampleVar, rollingWindow, listMean, List.rtake]
  exact ⟨hstd, C1_zscore_zero_std_point [((0 : Nat), (5 : ℚ)), (1, 5)] 2
    sqrtStub 1 1 5 sqrtStub_spec rfl hstd⟩

theorem getLast?_rtake_take {α : Type} (l : List α) (w m : Nat)
    (hw : 1 ≤ w) (hwm : w ≤ m) (hm : m ≤ l.length) :
    ((l.take m).rtake w).getLast? = l.get? (m - 1) := by
  have hlen : (l.take m).length = m := by rw [List.length_take]; omega
  unfold List.rtake
  rw [hlen, getLast?_drop_of_lt _ _
      (show m - w < (l.take m).length by rw [hlen]; omega)]
  rw [List.getLast?_eq_get?, hlen, List.get?_eq_getElem?, List.get?_eq_getElem?]
  exact List.getElem?_take_of_lt (by omega)

theorem innerJoin_map_fst_sublist (sa sb : List (Nat × ℚ)) :
    ((innerJoin sa sb).map Prod.fst).Sublist (sa.map Prod.fst) := by
  induction sa with
  | nil => simp [innerJoin]
  | cons p sa ih =>
    show ((List.filterMap _ (p :: sa)).map Prod.fst).Sublist _
    rw [List.filterMap_cons]
    cases h : List.lookup p.1 sb with
    | none => exact List.Sublist.cons p.1 ih
    | some vb => exact List.Sublist.cons₂ p.1 ih

theorem lookup_mem_keys {sb : List (Nat × ℚ)} {k : Nat} {v : ℚ}
    (h : List.lookup k sb = some v) : k ∈ sb.map Prod.fst := by
  induction sb with
  | nil => simp [List.lookup] at h
  | cons p sb ih =>
    obtain ⟨a, b⟩ := p
    by_cases hk : k = a
    · subst hk
      simp
    · rw [List.lookup_cons] at h
      rw [show (k == a) = false from beq_eq_false_iff_ne.mpr hk] at h
      simp only [cond_false] at h
      simp only [List.map_cons, List.mem_cons]
      exact Or.inr (ih h)

theorem innerJoin_length_le_left (sa sb : List (Nat × ℚ)) :
    (innerJoin sa sb).length ≤ sa.length := by
  have h := (innerJoin_map_fst_sublist sa sb).length_le
  simpa using h

theorem innerJoin_length_le_right (sa sb : List (Nat × ℚ))
    (hsa : List.Chain' (· < ·) (sa.map Prod.fst)) :
    (innerJoin sa sb).length ≤ sb.length := by
  have hpw : (sa.map Prod.fst).Pairwise (· < ·) :=
    List.chain'_iff_pairwise.mp hsa
  have hnd : (sa.map Prod.fst).Nodup := hpw.imp (fun h => ne_of_lt h)
  have hndj : ((innerJoin sa sb).map Prod.fst).Nodup :=
    (innerJoin_map_fst_sublist sa sb).nodup hnd
  have hsub : ((innerJoin sa sb).map Prod.fst) ⊆ (sb.map Prod.fst) := by
    intro k hk
    obtain ⟨p, hp, hpk⟩ := List.mem_map.mp hk
    obtain ⟨q, hq, hfq⟩ := List.mem_filterMap.mp hp
    cases hl : List.lookup q.1 sb with
    | none =>
      rw [hl] at hfq
      simp at hfq
    | some vb =>
      rw [hl] at hfq
      simp only [Option.map_some', Option.some.injEq] at hfq
      have : k = q.1 := by rw [← hpk, ← hfq]
      rw [this]
      exact lookup_mem_keys hl
  have hsp := List.subperm_of_subset hndj hsub
  have hlen := hsp.length_le
  simpa using hlen

theorem compute_hedge_ratio_unfold (sa sb : List (Nat × ℚ)) (W : Nat)
    (method : String) (huber theilsen : List ℚ → List ℚ → ℚ)
    (hsa : List.Chain' (· < ·) (sa.map Prod.fst))
    (hW : 2 ≤ W) (hle : W ≤ (innerJoin sa sb).length) :
    compute_hedge_ratio sa sb W method huber theilsen =
      (List.range ((innerJoin sa sb).length + 1 - W)).map (fun j =>
        (((((innerJoin sa sb).take (W + j)).rtake W).getLast?.map
            (fun q => q.1)).getD 0,
         hedgeFit method huber theilsen
           ((((innerJoin sa sb).take (W + j)).rtake W).map (fun q => q.2.1))
           ((((innerJoin sa sb).take (W + j)).rtake W).map (fun q => q.2.2)))) := by
  have h2 : 2 ≤ (innerJoin sa sb).length := le_trans hW hle
  have hA : ¬ min sa.length sb.length < 2 := by
    have h1 := innerJoin_length_le_left sa sb
    have h1' := innerJoin_length_le_right sa sb hsa
    omega
  have hB : ¬ (innerJoin sa sb).length < 2 := by omega
  have hmin : min W (innerJoin sa sb).length = W := min_eq_left hle
  have hW0 : ¬ (W = 0) := by omega
  unfold compute_hedge_ratio
  rw [if_neg hA, if_neg hB]
  simp only [hmin, if_neg hW0]

/-- C3: for price series whose inner join on timestamps has length len
with 2 ≤ W ≤ len, compute_hedge_ratio emits exactly len - W + 1 points,
and the j-th point carries the timestamp of the last row of its window
(aligned row j + W - 1). -/
theorem C3_hedge_ratio_window_count (sa sb : List (Nat × ℚ)) (W : Nat)
    (method : String) (huber theilsen : List ℚ → List ℚ → ℚ)
    (hsa : List.Chain' (· < ·) (sa.map Prod.fst))
    (hsb : List.Chain' (· < ·) (sb.map Prod.fst))
    (hW : 2 ≤ W) (hle : W ≤ (innerJoin sa sb).length) :
    (compute_hedge_ratio sa sb W method huber theilsen).length =
      (innerJoin sa sb).length - W + 1 ∧
    (∀ j, j < (innerJoin sa sb).length - W + 1 →
      ((compute_hedge_ratio sa sb W method huber theilsen).get? j).map
          Prod.fst =
        ((innerJoin sa sb).get? (j + W - 1)).map Prod.fst) := by
  rw [compute_hedge_ratio_unfold sa sb W method huber theilsen hsa hW hle]
  constructor
  · rw [List.length_map, List.length_range]
    omega
  · intro j hj
    rw [List.get?_map, List.get?_range (by omega)]
    simp only [Option.map_some']
    have hts := getLast?_rtake_take (innerJoin sa sb) W (W + j)
      (by omega) (by omega) (by omega)
    obtain ⟨q, hq⟩ : ∃ q, (innerJoin sa sb).get? (W + j - 1) = some q := by
      cases hq : (innerJoin sa sb).get? (W + j - 1) with
      | none =>
        rw [List.get?_eq_none] at hq
        omega
      | some q => exact ⟨q, rfl⟩
    rw [show j + W - 1 = W + j - 1 by omega, hq, hts, hq]
    simp

/-- Witness for C3 at two concrete three-point series, window 2, OLS. -/
theorem C3_hedge_ratio_window_count_witness :
    (2 ≤ (innerJoin [((0 : Nat), (1 : ℚ)), (1, 2), (2, 3)]
        [((0 : Nat), (2 : ℚ)), (1, 4), (2, 8)]).length) ∧
    (compute_hedge_ratio [((0 : Nat), (1 : ℚ)), (1, 2), (2, 3)]
        [((0 : Nat), (2 : ℚ)), (1, 4), (2, 8)] 2 "OLS"
        (fun _ _ => 0) (fun _ _ => 0)).length =
      (innerJoin [((0 : Nat), (1 : ℚ)), (1, 2), (2, 3)]
        [((0 : Nat), (2 : ℚ)), (1, 4), (2, 8)]).length - 2 + 1 := by
  have h := C3_hedge_ratio_window_count
    [((0 : Nat), (1 : ℚ)), (1, 2), (2, 3)]
    [((0 : Nat), (2 : ℚ)), (1, 4), (2, 8)] 2 "OLS"
    (fun _ _ => 0) (fun _ _ => 0)
    (by norm_num [List.chain'_cons]) (by norm_num [List.chain'_cons])
    (by decide) (by decide)
  exact ⟨by decide, h.1⟩

/-- C9: a regression method whose uppercased form is none of OLS, HUBER,
THEIL-SEN, KALMAN is not rejected: compute_hedge_ratio emits the full
len - W + 1 window points and every emitted value is the constant 1.0. -/
theorem C9_unknown_method_constant (sa sb : List (Nat × ℚ)) (W : Nat)
    (method : String) (huber theilsen : List ℚ → List ℚ → ℚ)
    (hm : strUpper method ∉
      (["OLS", "HUBER", "THEIL-SEN", "KALMAN"] : List String))
    (hsa : List.Chain' (· < ·) (sa.map Prod.fst))
    (hW : 2 ≤ W) (hle : W ≤ (innerJoin sa sb).length) :
    (compute_hedge_ratio sa sb W method huber theilsen).length =
      (innerJoin sa sb).length - W + 1 ∧
    ∀ p ∈ compute_hedge_ratio sa sb W method huber theilsen, p.2 = 1 := by
  simp only [List.mem_cons, List.not_mem_nil, or_false, not_or] at hm
  obtain ⟨h1, h2, h3, h4⟩ := hm
  rw [compute_hedge_ratio_unfold sa sb W method huber theilsen hsa hW hle]
  constructor
  · rw [List.length_map, List.length_range]
    omega
  · intro p hp
    obtain ⟨j, hj, rfl⟩ := List.mem_map.mp hp
    show hedgeFit method huber theilsen _ _ = 1
    unfold hedgeFit
    rw [if_neg h1, if_neg h2, if_neg h3, if_neg h4]

/-- Witness for C9 with the unknown method label FOO on two concrete
series. -/
theorem C9_unknown_method_constant_witness :
    (strUpper "FOO" ∉
      (["OLS", "HUBER", "THEIL-SEN", "KALMAN"] : List String)) ∧
    ((compute_hedge_ratio [((0 : Nat), (1 : ℚ)), (1, 2), (2, 3)]
        [((0 : Nat), (2 : ℚ)), (1, 4), (2, 8)] 2 "FOO"
        (fun _ _ => 0) (fun _ _ => 0)).length =
      (innerJoin [((0 : Nat), (1 : ℚ)), (1, 2), (2, 3)]
        [((0 : Nat), (2 : ℚ)), (1, 4), (2, 8)]).length - 2 + 1 ∧
     ∀ p ∈ compute_hedge_ratio [((0 : Nat), (1 : ℚ)), (1, 2), (2, 3)]
        [((0 : Nat), (2 : ℚ)), (1, 4), (2, 8)] 2 "FOO"
        (fun _ _ => 0) (fun _ _ => 0), p.2 = 1) := by
  have h := C9_unknown_method_constant
    [((0 : Nat), (1 : ℚ)), (1, 2), (2, 3)]
    [((0 : Nat), (2 : ℚ)), (1, 4), (2, 8)] 2 "FOO"
    (fun _ _ => 0) (fun _ _ => 0)
    (by decide) (by norm_num [List.chain'_cons]) (by decide) (by decide)
  exact ⟨by decide, h⟩

theorem rawRow_ts (ticks : List Tick) (w b : Nat) :
    (rawRow ticks w b).ts = b * w := by
  unfold rawRow
  split <;> rfl

theorem fixRow_ts (r : OhlcRow) : (fixRow r).ts = r.ts := rfl

theorem replaceZeroRow_ts (r : OhlcRow) : (replaceZeroRow r).ts = r.ts := rfl

theorem ffillRows_map_ts (rows : List OhlcRow) :
    ∀ po ph pl pc, (ffillRows po ph pl pc rows).map OhlcRow.ts =
      rows.map OhlcRow.ts := by
  induction rows with
  | nil => intro po ph pl pc; rfl
  | cons r rows ih =>
    intro po ph pl pc
    unfold ffillRows
    simp only [List.map_cons, ih]

theorem bfillRows_map_ts (rows : List OhlcRow) :
    (bfillRows rows).map OhlcRow.ts = rows.map OhlcRow.ts := by
  unfold bfillRows
  rw [List.map_reverse, ffillRows_map_ts, List.map_reverse,
    List.reverse_reverse]

theorem rawRow_fields {ticks : List Tick} {w b : Nat} {t0 : Tick}
    {rest : List Tick} (h : bucketTicks ticks w b = t0 :: rest) :
    rawRow ticks w b = ⟨b * w, some t0.price,
      some ((rest.map Tick.price).foldl max t0.price),
      some ((rest.map Tick.price).foldl min t0.price),
      some (((t0 :: rest).getLast (List.cons_ne_nil t0 rest)).price),
      some (((t0 :: rest).map Tick.qty).sum)⟩ := by
  unfold rawRow
  rw [h]

theorem resampleRows_mem {sorted : List Tick} {w : Nat} {r : OhlcRow}
    (hr : r ∈ resampleRows sorted w) :
    ∃ b, r = rawRow sorted w b ∧ bucketTicks sorted w b ≠ [] := by
  unfold resampleRows at hr
  obtain ⟨hr1, hna⟩ := List.mem_filter.mp hr
  obtain ⟨i, _, heq⟩ := List.mem_map.mp hr1
  refine ⟨_, heq.symm, ?_⟩
  intro hemp
  rw [← heq] at hna
  rw [show rawRow sorted w _ = ⟨_, none, none, none, none, none⟩ from by
    unfold rawRow; rw [hemp]] at hna
  simp [rowAllNa] at hna

theorem foldl_max_mem (init : ℚ) (xs : List ℚ) :
    xs.foldl max init ∈ init :: xs := by
  induction xs generalizing init with
  | nil => simp
  | cons a xs ih =>
    rw [List.foldl_cons]
    rcases List.mem_cons.mp (ih (max init a)) with h1 | h1
    · rw [h1]
      rcases max_choice init a with hc | hc <;> rw [hc] <;> simp
    · simp [h1]

theorem foldl_min_mem (init : ℚ) (xs : List ℚ) :
    xs.foldl min init ∈ init :: xs := by
  induction xs generalizing init with
  | nil => simp
  | cons a xs ih =>
    rw [List.foldl_cons]
    rcases List.mem_cons.mp (ih (min init a)) with h1 | h1
    · rw [h1]
      rcases min_choice init a with hc | hc <;> rw [hc] <;> simp
    · simp [h1]

theorem rawRow_nonzero_fields {sorted : List Tick} {w b : Nat}
    (hnz : ∀ t ∈ sorted, t.price ≠ 0)
    (hne : bucketTicks sorted w b ≠ []) :
    ∃ o hi lo c v, rawRow sorted w b =
      ⟨b * w, some o, some hi, some lo, some c, some v⟩ ∧
      o ≠ 0 ∧ hi ≠ 0 ∧ lo ≠ 0 ∧ c ≠ 0 := by
  cases hb : bucketTicks sorted w b with
  | nil => exact absurd hb hne
  | cons t0 rest =>
    rw [rawRow_fields hb]
    have hmem : ∀ t ∈ t0 :: rest, t.price ≠ 0 := by
      intro t ht
      apply hnz
      rw [← hb] at ht
      exact List.mem_of_mem_filter ht
    refine ⟨_, _, _, _, _, rfl, hmem t0 (by simp), ?_, ?_, ?_⟩
    · rcases List.mem_cons.mp (foldl_max_mem t0.price (rest.map Tick.price))
        with h1 | h1
      · rw [h1]
        exact hmem t0 (by simp)
      · obtain ⟨u, hu, hup⟩ := List.mem_map.mp h1
        rw [← hup]
        exact hmem u (by simp [hu])
    · rcases List.mem_cons.mp (foldl_min_mem t0.price (rest.map Tick.price))
        with h1 | h1
      · rw [h1]
        exact hmem t0 (by simp)
      · obtain ⟨u, hu, hup⟩ := List.mem_map.mp h1
        rw [← hup]
        exact hmem u (by simp [hu])
    · exact hmem _ (List.getLast_mem (List.cons_ne_nil t0 rest))

theorem replaceZero_some_ne {x : ℚ} (h : x ≠ 0) :
    replaceZero (some x) = some x := by
  simp [replaceZero, h]

theorem fillValue_some (x p : Option ℚ) (h : x.isSome = true) :
    fillValue x p = x := by
  cases x with
  | none => simp at h
  | some v => rfl

theorem ffillRows_id (rows : List OhlcRow)
    (h : ∀ r ∈ rows, r.open_.isSome = true ∧ r.high.isSome = true ∧
      r.low.isSome = true ∧ r.close.isSome = true) :
    ∀ po ph pl pc, ffillRows po ph pl pc rows = rows := by
  induction rows with
  | nil => intro po ph pl pc; rfl
  | cons r rows ih =>
    intro po ph pl pc
    obtain ⟨ho, hh, hl, hc⟩ := h r (by simp)
    simp only [ffillRows]
    rw [fillValue_some _ _ ho, fillValue_some _ _ hh, fillValue_some _ _ hl,
      fillValue_some _ _ hc, ih (fun u hu => h u (by simp [hu]))]

theorem bfillRows_id (rows : List OhlcRow)
    (h : ∀ r ∈ rows, r.open_.isSome = true ∧ r.high.isSome = true ∧
      r.low.isSome = true ∧ r.close.isSome = true) :
    bfillRows rows = rows := by
  unfold bfillRows
  rw [ffillRows_id _ (fun r hr => h r (List.mem_reverse.mp hr)),
    List.reverse_reverse]

theorem optMax_some4 (a b c d : ℚ) :
    optMax [some a, some b, some c, some d] =
      some (max (max (max a b) c) d) := rfl

theorem optMin_some4 (a b c d : ℚ) :
    optMin [some a, some b, some c, some d] =
      some (min (min (min a b) c) d) := rfl

theorem candleOk_fixRow (ts : Nat) (o hi lo c : ℚ) (v : Option ℚ) :
    candleOk (fixRow ⟨ts, some o, some hi, some lo, some c, v⟩) = true := by
  unfold fixRow
  simp only [optMax_some4, optMin_some4]
  unfold candleOk
  rw [decide_eq_true_eq]
  constructor
  · apply max_le
    · exact le_trans (le_max_left o hi)
        (le_trans (le_max_left _ lo) (le_max_left _ c))
    · exact le_max_right _ c
  · apply le_min
    · exact le_trans (min_le_left _ c)
        (le_trans (min_le_left _ lo) (min_le_left o _))
    · exact min_le_right _ c

/-- C6 (amended): every candle produced by resample_to_ohlcv belongs to a
bucket containing at least one tick (empty buckets are omitted, not
zero-filled); and provided no tick has price exactly 0 (zero prices are
turned into NaN by the replace step and can leave undefined fields), every
candle satisfies high ≥ max(open, close) and low ≤ min(open, close) after
the fill step. -/
theorem C6_resample_candle_invariant (ticks : List Tick) (w : Nat)
    (hw : 0 < w) :
    ∀ r ∈ resample_to_ohlcv ticks w,
      (∃ t ∈ ticks, t.ts / w = r.ts / w) ∧
      ((∀ t ∈ ticks, t.price ≠ 0) → candleOk r = true) := by
  intro r hr
  cases ticks with
  | nil => simp [resample_to_ohlcv] at hr
  | cons t1 ts1 =>
    simp only [resample_to_ohlcv] at hr
    set sorted := List.insertionSort (fun a b => a.ts ≤ b.ts) (t1 :: ts1)
      with hsorted
    have hperm : sorted.Perm (t1 :: ts1) := List.perm_insertionSort _ _
    constructor
    · obtain ⟨r3, hr3, hr3e⟩ := List.mem_map.mp hr
      have hts : r3.ts ∈
          ((resampleRows sorted w).map replaceZeroRow).map OhlcRow.ts := by
        have h0 : r3.ts ∈ (bfillRows (ffillRows none none none none
            ((resampleRows sorted w).map replaceZeroRow))).map OhlcRow.ts :=
          List.mem_map_of_mem _ hr3
        rwa [bfillRows_map_ts, ffillRows_map_ts] at h0
      rw [List.map_map] at hts
      obtain ⟨r1, hr1, hr1e⟩ := List.mem_map.mp hts
      obtain ⟨b, hb, hbne⟩ := resampleRows_mem hr1
      obtain ⟨t0, ht0⟩ : ∃ t0, t0 ∈ bucketTicks sorted w b := by
        cases hbt : bucketTicks sorted w b with
        | nil => exact absurd hbt hbne
        | cons x xs => exact ⟨x, by simp [hbt]⟩
      refine ⟨t0, hperm.mem_iff.mp (List.mem_of_mem_filter ht0), ?_⟩
      have hb0 : t0.ts / w = b := by
        have h2 := (List.mem_filter.mp ht0).2
        simp only [beq_iff_eq] at h2
        exact h2
      have e1 : r1.ts = r3.ts := hr1e
      have hrts : r.ts = b * w := by
        calc r.ts = r3.ts := by rw [← hr3e]; exact fixRow_ts r3
        _ = r1.ts := e1.symm
        _ = b * w := by rw [hb, rawRow_ts]
      rw [hrts, Nat.mul_div_cancel _ hw, hb0]
    · intro hnz
      have hnzs : ∀ t ∈ sorted, t.price ≠ 0 :=
        fun t ht => hnz t (hperm.mem_iff.mp ht)
      have hsome : ∀ r2 ∈ (resampleRows sorted w).map replaceZeroRow,
          r2.open_.isSome = true ∧ r2.high.isSome = true ∧
          r2.low.isSome = true ∧ r2.close.isSome = true := by
        intro r2 hr2
        obtain ⟨r1, hr1, hr1e⟩ := List.mem_map.mp hr2
        obtain ⟨o, hi, lo, c, v, heq, ho, hhi, hlo, hc⟩ :=
          rawRow_nonzero_fields hnzs (resampleRows_mem hr1).choose_spec.2
        rw [← hr1e, (resampleRows_mem hr1).choose_spec.1, heq]
        simp [replaceZeroRow, replaceZero_some_ne ho, replaceZero_some_ne hhi,
          replaceZero_some_ne hlo, replaceZero_some_ne hc]
      rw [ffillRows_id _ hsome, bfillRows_id _ hsome] at hr
      obtain ⟨r2, hr2, hr2e⟩ := List.mem_map.mp hr
      obtain ⟨r1, hr1, hr1e⟩ := List.mem_map.mp hr2
      obtain ⟨b, hb, hbne⟩ := resampleRows_mem hr1
      obtain ⟨o, hi, lo, c, v, heq, ho, hhi, hlo, hc⟩ :=
        rawRow_nonzero_fields hnzs hbne
      rw [← hr2e, ← hr1e, hb, heq]
      rw [show replaceZeroRow ⟨b * w, some o, some hi, some lo, some c, some v⟩ =
          ⟨b * w, some o, some hi, some lo, some c, some v⟩ from by
        simp [replaceZeroRow, replaceZero_some_ne ho, replaceZero_some_ne hhi,
          replaceZero_some_ne hlo, replaceZero_some_ne hc]]
      exact candleOk_fixRow _ o hi lo c (some v)

/-- Counterexample to C6 as stated: a single tick with price exactly 0
produces one candle whose price fields are all NaN after zero-replacement
and filling, so high ≥ max(open, close) fails (an IEEE comparison against
NaN is false); the tick list is nonempty. -/
theorem C6_resample_candle_counterexample :
    resample_to_ohlcv [Tick.mk "X" 0 1 0] 60 =
      [OhlcRow.mk 0 none none none none (some 1)] ∧
    candleOk (OhlcRow.mk 0 none none none none (some 1)) = false := by
  constructor
  · norm_num [resample_to_ohlcv, resampleRows, rawRow, bucketTicks, rowAllNa,
      replaceZeroRow, replaceZero, ffillRows, bfillRows, fixRow, optMax,
      optMin, fillValue, List.insertionSort, List.orderedInsert,
      List.range_succ]
  · rfl

/-- Witness for the amended C6 on a one-tick list with nonzero price. -/
theorem C6_resample_candle_invariant_witness :
    0 < 60 ∧
    ∀ r ∈ resample_to_ohlcv [Tick.mk "X" 2 1 0] 60,
      (∃ t ∈ [Tick.mk "X" 2 1 0], t.ts / 60 = r.ts / 60) ∧
      ((∀ t ∈ [Tick.mk "X" 2 1 0], t.price ≠ 0) → candleOk r = true) :=
  ⟨by decide, C6_resample_candle_invariant [Tick.mk "X" 2 1 0] 60 (by decide)⟩

/-- Witness instantiating C7 at a concrete actual/threshold pair. -/
theorem C7_alert_equality_tolerance_witness :
    evaluate_condition 2 "==" 2 = true ↔ |(2 : ℚ) - 2| < 1 / 1000000 :=
  C7_alert_equality_tolerance.1 2 2

/-- Witness instantiating C5 at a concrete manager state and arguments. -/
theorem C5_get_ohlcv_idempotent_witness :
    ((DataManager.mk (fun _ => [Tick.mk "BTCUSDT" 7 1 0]) (fun _ => none) 5
        |>.get_ohlcv "BTCUSDT" "1m" none none none false).2.get_ohlcv
        "BTCUSDT" "1m" none none none false) =
      (DataManager.mk (fun _ => [Tick.mk "BTCUSDT" 7 1 0]) (fun _ => none) 5
        |>.get_ohlcv "BTCUSDT" "1m" none none none false) :=
  C5_get_ohlcv_idempotent
    (DataManager.mk (fun _ => [Tick.mk "BTCUSDT" 7 1 0]) (fun _ => none) 5)
    "BTCUSDT" "1m" none none none
